import Mathlib

/-!
Verification of the circuit-simulator solver (`src/script.js`, `App.solveCircuit`
and `Matrix.solve`) against its specification.

Modelling conventions (shallow embedding):
* JavaScript numbers (IEEE doubles) are modelled by exact rationals `ℚ`;
  the spec's "within floating tolerance" is read as equality of the
  idealized exact arithmetic.  All numeric literals of the source
  (`1e-9`, `0.01`, `1e9`, `0.1`, `1e7`, `1e-10`, `1.5`) become the
  corresponding rationals.  `parseFloat` applied to an already numeric
  property is the identity; `parseFloat(x) || 0` likewise (ℚ has no NaN).
* Division in ℚ is total with `x / 0 = 0`; the one place the source can
  divide by zero (a passive component with configured resistance 0 in the
  update step, the spec's open issue) is treated by stating that the
  divisor is 0 rather than by producing an infinity.
* The union-find of the topology builder is purified: instead of a mutated
  `parent` array with path compression we carry the fully resolved
  root-of-each-element list; `union(i,j)` (JS: `parent[find(i)] = find(j)`)
  becomes "rewrite every occurrence of `find i` to `find j`", which yields
  exactly the same `find` results as the source (path compression never
  changes the value of `find`).
* JavaScript `Map.set` overwrites, so a lookup returns the most recent
  binding; `lookupLast` models this.  Component identifiers are the
  (opaque) `id` strings, modelled as `Nat`.
* A wire stores references to its two component objects; the solver only
  ever uses `w.startComp.id` / `w.endComp.id` (through `getTermKey`), so a
  wire is modelled by the two ids plus the two terminal indices.  A wire
  whose id is absent from the key map is skipped by the model (the editor
  deletes wires together with their components, so this case does not
  arise for circuits produced by the application).
-/

/- The arithmetic operations of `Rat` are `@[irreducible]` in Batteries;
to let `decide`/`rfl` evaluate the solver on concrete circuits we restore
their ordinary reducibility for this file. -/
attribute [local semireducible] Rat.add Rat.mul Rat.sub Rat.inv Rat.ofScientific

namespace Circuits

/-- The six component type tags of the source. -/
inductive CompType where
  | battery
  | resistor
  | light
  | switch
  | fan
  | diode
deriving DecidableEq, Repr

/-- Flat record of every type-specific property the solver reads
(`c.properties.…`).  Each component type only uses its own fields, exactly
as the open JS record. -/
structure Properties where
  voltage : ℚ
  internalResistance : ℚ
  resistance : ℚ
  powerRating : ℚ
  closed : Bool
  forwardVoltage : ℚ
deriving DecidableEq, Repr

/-- Mutable electrical state (`c.state`).  `nodeIds` stores the two solved
matrix indices, `-1` being the ground sentinel. -/
structure CompState where
  voltageDrop : ℚ
  current : ℚ
  power : ℚ
  burnt : Bool
  nodeIds : Int × Int
deriving DecidableEq, Repr

/-- A component: identifier, type tag, visual fields (position, rotation,
terminal offsets — carried only so that the frame conditions can speak
about them), properties and state. -/
structure Component where
  id : ℕ
  ctype : CompType
  x : ℚ
  y : ℚ
  rotation : Int
  terminals : List (ℕ × ℚ × ℚ)
  properties : Properties
  state : CompState
deriving DecidableEq, Repr

/-- A wire: `{startComp, startTermId, endComp, endTermId}`, with the two
component references represented by their ids (the solver reads only the
ids, via `getTermKey`). -/
structure Wire where
  startId : ℕ
  startTermId : ℕ
  endId : ℕ
  endTermId : ℕ
deriving DecidableEq, Repr

/-- The circuit graph the solver mutates: `this.components` and
`this.wires`. -/
structure Circuit where
  components : List Component
  wires : List Wire
deriving DecidableEq, Repr

def defaultComponent : Component :=
  { id := 0, ctype := .resistor, x := 0, y := 0, rotation := 0, terminals := []
    properties := { voltage := 0, internalResistance := 0, resistance := 0
                    powerRating := 0, closed := false, forwardVoltage := 0 }
    state := { voltageDrop := 0, current := 0, power := 0, burnt := false
               nodeIds := (0, 0) } }

instance : Inhabited Component := ⟨defaultComponent⟩

/-! ### Matrix utilities and `Matrix.solve` (Gaussian elimination,
`src/script.js` lines 12–48) -/

/-- A dense matrix as a list of rows. -/
abbrev Mat := List (List ℚ)

def mGet (A : Mat) (i j : ℕ) : ℚ := (A.getD i []).getD j 0

def mSet (A : Mat) (i j : ℕ) (v : ℚ) : Mat :=
  A.set i ((A.getD i []).set j v)

def mAdd (A : Mat) (i j : ℕ) (v : ℚ) : Mat :=
  mSet A i j (mGet A i j + v)

/-- The pivot tolerance `1e-10`. -/
def pivTol : ℚ := 1 / 10 ^ 10

/-- `maxRow` selection: the first row index in `[i, n)` whose entry in
column `i` has strictly maximal absolute value (the JS loop updates only
on `>`). -/
def pivotRowIdx (M : Mat) (n i : ℕ) : ℕ :=
  (List.range' (i + 1) (n - (i + 1))).foldl
    (fun best k => if |mGet M k i| > |mGet M best i| then k else best) i

/-- Swap two rows (the JS destructuring swap). -/
def swapRows (M : Mat) (i j : ℕ) : Mat :=
  ((M.set i (M.getD j [])).set j (M.getD i []))

/-- One step of forward elimination on the augmented matrix: pick the
pivot row, swap it into place, and, unless the pivot is below tolerance,
eliminate the rows below (the JS `continue` skips only the elimination —
the swap has already happened). -/
def elimStep (n : ℕ) (M : Mat) (i : ℕ) : Mat :=
  let p := pivotRowIdx M n i
  let M1 := swapRows M i p
  if |mGet M1 i i| < pivTol then M1
  else
    (List.range' (i + 1) (n - (i + 1))).foldl
      (fun Mk k =>
        let factor := mGet Mk k i / mGet Mk i i
        (List.range' i (n + 1 - i)).foldl
          (fun Mj j => mAdd Mj k j (-(factor * mGet Mj i j))) Mk)
      M1

/-- Back substitution, from row `n-1` down to `0`; a sub-tolerance
diagonal leaves the unknown at `0`. -/
def backSubAux (M : Mat) (n : ℕ) : ℕ → List ℚ → List ℚ
  | 0, x => x
  | i + 1, x =>
    let x1 :=
      if |mGet M i i| < pivTol then x
      else
        let s := ((List.range' (i + 1) (n - (i + 1))).map
          (fun j => mGet M i j * x.getD j 0)).sum
        x.set i ((mGet M i n - s) / mGet M i i)
    backSubAux M n i x1

/-- `Matrix.solve(A, b)`: augment, eliminate with partial pivoting,
back-substitute. -/
def matSolve (A : Mat) (b : List ℚ) : List ℚ :=
  let n := A.length
  let M := (A.zip b).map (fun p => p.1 ++ [p.2])
  let M1 := (List.range n).foldl (elimStep n) M
  backSubAux M1 n n (List.replicate n 0)

/-! ### Topology builder (`solveCircuit`, lines 641–668)

Terminal universe: component at list position `k` contributes set ids
`2k` (terminal 0) and `2k+1` (terminal 1), in `forEach` order.  The key
map sends `(id, terminalId)` to the set id, later insertions shadowing
earlier ones as with a JS `Map`. -/

/-- The `keyToSetId` map, built from the component ids in order. -/
def buildKeyMap (ids : List ℕ) : List ((ℕ × ℕ) × ℕ) :=
  ids.enum.flatMap (fun p => [((p.2, 0), 2 * p.1), ((p.2, 1), 2 * p.1 + 1)])

/-- JS `Map.get`: the most recently inserted binding wins. -/
def lookupLast (m : List ((ℕ × ℕ) × ℕ)) (k : ℕ × ℕ) : Option ℕ :=
  m.foldl (fun acc e => if e.1 = k then some e.2 else acc) none

/-- Purified union-find: `root` lists the current root of every element;
`union i j` (JS: `parent[find i] := find j`) redirects every element whose
root is `find i` to `find j`. -/
def dsuUnion (root : List ℕ) (i j : ℕ) : List ℕ :=
  let ri := root.getD i 0
  let rj := root.getD j 0
  if ri = rj then root else root.map (fun r => if r = ri then rj else r)

/-- Union the two endpoints of every wire (lines 665–668). -/
def applyWires (km : List ((ℕ × ℕ) × ℕ)) (ws : List Wire) (root : List ℕ) :
    List ℕ :=
  ws.foldl
    (fun r w =>
      match lookupLast km (w.startId, w.startTermId),
            lookupLast km (w.endId, w.endTermId) with
      | some a, some b => dsuUnion r a b
      | _, _ => r)
    root

/-! ### Stage functions over a circuit -/

def keyMapC (ckt : Circuit) : List ((ℕ × ℕ) × ℕ) :=
  buildKeyMap (ckt.components.map (·.id))

/-- The resolved union-find after all wires. -/
def dsuRootC (ckt : Circuit) : List ℕ :=
  applyWires (keyMapC ckt) ckt.wires (List.range (2 * ckt.components.length))

/-- `find(keyToSetId.get(getTermKey(c, t)))`: the set id of a terminal,
looked up by the component's id (last binding wins). -/
def termSetId (ckt : Circuit) (cid t : ℕ) : ℕ :=
  (lookupLast (keyMapC ckt) (cid, t)).getD 0

/-- The root of a terminal. -/
def termRoot (ckt : Circuit) (cid t : ℕ) : ℕ :=
  (dsuRootC ckt).getD (termSetId ckt cid t) 0

/-- `distinctRoots` in Set insertion order: iterate components, terminals
0 then 1 (lines 677–680). -/
def rawRoots (ckt : Circuit) : List ℕ :=
  ckt.components.flatMap (fun c => [termRoot ckt c.id 0, termRoot ckt c.id 1])

/-- First-occurrence deduplication — JS `Set` iteration order. -/
def dedupFirst (l : List ℕ) : List ℕ :=
  l.foldl (fun acc a => if a ∈ acc then acc else acc ++ [a]) []

def rootsListC (ckt : Circuit) : List ℕ := dedupFirst (rawRoots ckt)

/-- Ground selection (lines 689–695): the root of terminal 0 of the first
battery if one exists, else the first root. -/
def groundRootC (ckt : Circuit) : ℕ :=
  match ckt.components.find? (fun c => c.ctype = .battery) with
  | some b => termRoot ckt b.id 0
  | none => (rootsListC ckt).headD 0

/-- `rootToMatrixIdx`: ground maps to `-1`, the other roots to
`0, 1, 2, …` in `rootsArray` order (lines 698–704). -/
def rootMatrixIdx (ckt : Circuit) (r : ℕ) : Int :=
  if r = groundRootC ckt then -1
  else (((rootsListC ckt).filter (fun a => a ≠ groundRootC ckt)).indexOf r : Int)

/-- `matrixSize`: the number of non-ground roots. -/
def freeNodeCount (ckt : Circuit) : ℕ :=
  (((rootsListC ckt).filter (fun a => a ≠ groundRootC ckt))).length

/-- The matrix index of a component's terminal. -/
def nodeOf (ckt : Circuit) (cid t : ℕ) : Int :=
  rootMatrixIdx ckt (termRoot ckt cid t)

/-- List positions of the non-burnt batteries, in order — the
`voltageSources` array; `voltageSources.indexOf(c)` compares object
identities, which list positions model faithfully. -/
def vsPositions (ckt : Circuit) : List ℕ :=
  (ckt.components.enum.filter
    (fun p => p.2.ctype = .battery ∧ p.2.state.burnt = false)).map (·.1)

/-- Matrix dimension: free nodes plus active voltage sources. -/
def numVars (ckt : Circuit) : ℕ :=
  freeNodeCount ckt + (vsPositions ckt).length

/-! ### System assembler (lines 716–813) -/

/-- Conductance stamp (`addG`, lines 722–729): `-1` is the ground
sentinel and contributes nothing. -/
def addG (A : Mat) (n1 n2 : Int) (G : ℚ) : Mat :=
  let A1 := if n1 ≠ -1 then mAdd A n1.toNat n1.toNat G else A
  let A2 := if n2 ≠ -1 then mAdd A1 n2.toNat n2.toNat G else A1
  if n1 ≠ -1 ∧ n2 ≠ -1 then
    mAdd (mAdd A2 n1.toNat n2.toNat (-G)) n2.toNat n1.toNat (-G)
  else A2

/-- The resistance each passive branch of the assembly loop computes
(lines 741–752): resistor/light/fan use the configured resistance, a
switch uses `0.01` when closed and `1e9` when open, a diode uses `0.1`
when last solve's voltage drop strictly exceeded `forwardVoltage` and
`1e7` otherwise.  The battery case is never consulted. -/
def assemblyR (c : Component) : ℚ :=
  match c.ctype with
  | .resistor | .light | .fan => c.properties.resistance
  | .switch => if c.properties.closed then 1 / 100 else 10 ^ 9
  | .diode =>
    if c.state.voltageDrop > c.properties.forwardVoltage then 1 / 10 else 10 ^ 7
  | .battery => 0

/-- One component's contribution to `(A, b)` (the body of the assembly
`forEach`, lines 735–810); `k` is the component's list position,
`msize` the free-node count, `vsPos` the voltage-source positions. -/
def stampComp (ckt : Circuit) (msize : ℕ) (vsPos : List ℕ)
    (acc : Mat × List ℚ) (k : ℕ) (c : Component) : Mat × List ℚ :=
  if c.state.burnt then acc
  else
    let n1 := nodeOf ckt c.id 0
    let n2 := nodeOf ckt c.id 1
    match c.ctype with
    | .resistor | .light | .fan =>
      let R := assemblyR c
      if R > 0 then (addG acc.1 n1 n2 (1 / R), acc.2) else acc
    | .switch => (addG acc.1 n1 n2 (1 / assemblyR c), acc.2)
    | .diode => (addG acc.1 n1 n2 (1 / assemblyR c), acc.2)
    | .battery =>
      let s := msize + vsPos.indexOf k
      let A := acc.1
      let A := if n1 ≠ -1 then mSet A s n1.toNat (-1) else A
      let A := if n2 ≠ -1 then mSet A s n2.toNat 1 else A
      let A := if n1 ≠ -1 then mSet A n1.toNat s (-1) else A
      let A := if n2 ≠ -1 then mSet A n2.toNat s 1 else A
      let rInt := c.properties.internalResistance
      let A := mSet A s s rInt
      (A, acc.2.set s c.properties.voltage)

/-- Assemble the MNA system: start from zeros, stamp every component in
order, then add the `1e-9` leakage to every free-node diagonal
(lines 812–814). -/
def assembleSystem (ckt : Circuit) : Mat × List ℚ :=
  let n := numVars ckt
  let init : Mat × List ℚ :=
    (List.replicate n (List.replicate n 0), List.replicate n 0)
  let stamped := ckt.components.enum.foldl
    (fun acc p => stampComp ckt (freeNodeCount ckt) (vsPositions ckt) acc p.1 p.2)
    init
  ((List.range (freeNodeCount ckt)).foldl
      (fun A i => mAdd A i i (1 / 10 ^ 9)) stamped.1,
    stamped.2)

/-- The solution vector `x`. -/
def solutionVec (ckt : Circuit) : List ℚ :=
  matSolve (assembleSystem ckt).1 (assembleSystem ckt).2

/-! ### State updater (lines 816–863) -/

/-- `getNodeV`: ground reads 0, other nodes read their solved entry. -/
def getNodeV (x : List ℚ) (r : Int) : ℚ :=
  if r = -1 then 0 else x.getD r.toNat 0

/-- The resistance the update step divides by (lines 846–849): the
configured resistance, overridden for a switch and for a diode — the
diode override reading the voltage drop stored from the previous solve,
before this update overwrites it. -/
def updateR (c : Component) : ℚ :=
  let R := c.properties.resistance
  let R1 := if c.ctype = .switch then
      (if c.properties.closed then 1 / 100 else 10 ^ 9) else R
  if c.ctype = .diode then
    (if c.state.voltageDrop > c.properties.forwardVoltage then 1 / 10 else 10 ^ 7)
  else R1

/-- `v2 - v1`: the voltage drop the update step reads off the solution
(ground terminals read exactly 0). -/
def updVdrop (ckt : Circuit) (x : List ℚ) (c : Component) : ℚ :=
  getNodeV x (nodeOf ckt c.id 1) - getNodeV x (nodeOf ckt c.id 0)

/-- One component's state update (the body of the update `forEach`,
lines 817–862).  A burnt component only has current and power zeroed (the
early `return` skips the `nodeIds` write as well); a battery reads its
branch unknown; a passive component recomputes `V/R` and may burn. -/
def updateComp (ckt : Circuit) (x : List ℚ) (k : ℕ) (c : Component) :
    Component :=
  if c.state.burnt then
    { c with state := { c.state with current := 0, power := 0 } }
  else if c.ctype = .battery then
    let s := freeNodeCount ckt + (vsPositions ckt).indexOf k
    let iBatt := x.getD s 0
    { c with state := { c.state with
        voltageDrop := updVdrop ckt x c
        current := iBatt
        power := iBatt * iBatt * c.properties.internalResistance
        nodeIds := (nodeOf ckt c.id 0, nodeOf ckt c.id 1) } }
  else
    let I := updVdrop ckt x c / updateR c
    let newPower := I * I * updateR c
    let newBurnt :=
      if (c.ctype = .resistor ∨ c.ctype = .light ∨ c.ctype = .fan) ∧
          newPower > c.properties.powerRating * (3 / 2) then
        true
      else c.state.burnt
    { c with state := { c.state with
        voltageDrop := updVdrop ckt x c
        current := I
        power := newPower
        burnt := newBurnt
        nodeIds := (nodeOf ckt c.id 0, nodeOf ckt c.id 1) } }

/-- `App.solveCircuit` (lines 636–865): empty graph → no-op; zero free
nodes → zero every component's current and voltage drop; otherwise
assemble, solve and update every component. -/
def solveCircuit (ckt : Circuit) : Circuit :=
  if ckt.components = [] then ckt
  else if freeNodeCount ckt = 0 then
    { ckt with components := ckt.components.map (fun c =>
        { c with state := { c.state with current := 0, voltageDrop := 0 } }) }
  else
    { ckt with components :=
        ckt.components.enum.map (fun p => updateComp ckt (solutionVec ckt) p.1 p.2) }

/-! ### Concrete circuits used by the claim theorems -/

def blankProps : Properties :=
  { voltage := 0, internalResistance := 0, resistance := 0
    powerRating := 0, closed := false, forwardVoltage := 0 }

def mkComp (i : ℕ) (t : CompType) (p : Properties) : Component :=
  { defaultComponent with id := i, ctype := t, properties := p }

/-- The default 9 V battery with 1.5 Ω internal resistance. -/
def bat9 : Component :=
  mkComp 1 .battery { blankProps with voltage := 9, internalResistance := 3 / 2 }

/-- The default 100 Ω, 0.5 W resistor. -/
def res100 : Component :=
  mkComp 2 .resistor { blankProps with resistance := 100, powerRating := 1 / 2 }

/-- The spec's series test circuit: battery and resistor in a single loop
(terminal 1 to terminal 1, terminal 0 to terminal 0). -/
def seriesCircuit : Circuit :=
  { components := [bat9, res100]
    wires := [⟨1, 1, 2, 1⟩, ⟨1, 0, 2, 0⟩] }

/-- A closed switch whose configured resistance property is `r`. -/
def switchComp (r : ℚ) : Component :=
  mkComp 5 .switch { blankProps with closed := true, resistance := r }

/-- A circuit holding just that switch (its two terminals are the two
nodes; terminal 0's node is ground). -/
def switchCircuit (r : ℚ) : Circuit :=
  { components := [switchComp r], wires := [] }

/-- A diode with forward threshold 0.7 V. -/
def diodeOff : Component :=
  mkComp 6 .diode { blankProps with forwardVoltage := 7 / 10 }

/-- The same diode after a solve left a 1 V drop, exceeding the
threshold. -/
def diodeOn : Component :=
  { diodeOff with
    state := { voltageDrop := 1, current := 0, power := 0, burnt := false
               nodeIds := (0, 0) } }

/-- A burnt resistor frozen at a nonzero voltage drop and power. -/
def burntRes : Component :=
  { res100 with
    id := 3
    state := { voltageDrop := 5, current := 2, power := 2, burnt := true
               nodeIds := (0, 0) } }

/-- The burnt resistor with its own two terminals wired together: a
single electrical node, so the solve takes the zero-free-node path. -/
def tiedCircuit : Circuit :=
  { components := [burntRes], wires := [⟨3, 0, 3, 1⟩] }

/-- A resistor with configured resistance exactly 0. -/
def res0 : Component :=
  mkComp 2 .resistor { blankProps with resistance := 0, powerRating := 1 / 2 }

/-- The series loop with the zero-ohm resistor. -/
def zeroResCircuit : Circuit :=
  { components := [bat9, res0], wires := [⟨1, 1, 2, 1⟩, ⟨1, 0, 2, 0⟩] }

/-- The series loop with a power rating high enough that nothing burns. -/
def resOK : Component :=
  mkComp 2 .resistor { blankProps with resistance := 100, powerRating := 10 }

def okCircuit : Circuit :=
  { components := [bat9, resOK]
    wires := [⟨1, 1, 2, 1⟩, ⟨1, 0, 2, 0⟩] }

/-- Everything of a component except its mutable state. -/
def structuralProj (c : Component) :
    ℕ × CompType × ℚ × ℚ × Int × List (ℕ × ℚ × ℚ) × Properties :=
  (c.id, c.ctype, c.x, c.y, c.rotation, c.terminals, c.properties)

/-- An `n × n` matrix as a list of rows. -/
def matShape (n : ℕ) (A : Mat) : Prop :=
  A.length = n ∧ ∀ row ∈ A, row.length = n

/-- The electrical state the idempotence property compares. -/
def stateProj (c : Component) : ℚ × ℚ × ℚ × Bool :=
  (c.state.current, c.state.voltageDrop, c.state.power, c.state.burnt)

/-- Everything the assembler reads from a non-diode component. -/
def solveView (c : Component) : ℕ × CompType × Properties × Bool :=
  (c.id, c.ctype, c.properties, c.state.burnt)

/-! ### C1 — series-circuit values -/

set_option maxRecDepth 8000 in
/-- **C1.** For the series circuit of the default battery (9 V, 1.5 Ω)
and resistor (100 Ω), the claim says the solver produces current of
magnitude ≈ 9/101.5 ≈ 0.08867 A, resistor power ≈ 0.7859 W and battery
power ≈ 0.01178 W.  The code instead produces resistor current
180000000/1969999997 ≈ 0.09137 A (= 9/98.5 up to the 1e-9 leakage: the
voltage-source stamp's node-row coupling signs are flipped, so the
internal resistance subtracts instead of adding), resistor power
≈ 0.835 W and battery power ≈ 0.01252 W — each far outside floating
tolerance of the claimed values.  This theorem evaluates the embedded
solver at the failing input and shows the divergences. -/
theorem c1_series_circuit_diverges :
    ((solveCircuit seriesCircuit).components.map (fun c => c.state.current))
        = [-(180000018 / 1969999997), 180000000 / 1969999997] ∧
    |(180000000 : ℚ) / 1969999997 - 18 / 203| > 1 / 500 ∧
    |((solveCircuit seriesCircuit).components.map
        (fun c => c.state.power)).getD 1 0 - 7859 / 10000| > 1 / 25 ∧
    |((solveCircuit seriesCircuit).components.map
        (fun c => c.state.power)).getD 0 0 - 1178 / 100000| > 1 / 2000 := by
  decide

/-! ### C2 — closed-switch conductance -/

set_option maxRecDepth 8000 in
/-- **C2 (counterexample).** A closed, non-burnt switch with configured
resistance 7 Ω: the claim says its stamped conductance is 1/7, so the
assembled 1×1 system (the switch alone, one free node) would carry
`1/7 + 1e-9` on the diagonal.  The code stamps the constant `1/0.01`,
giving `100 + 1e-9`; the update step divides by the same constant. -/
theorem c2_switch_conductance_counterexample :
    (switchComp 7).properties.closed = true ∧
    (switchComp 7).state.burnt = false ∧
    (assembleSystem (switchCircuit 7)).1 ≠ [[1 / 7 + 1 / 10 ^ 9]] ∧
    (assembleSystem (switchCircuit 7)).1 = [[100 + 1 / 10 ^ 9]] ∧
    updateR (switchComp 7) ≠ 1 / 7 := by
  decide

/-- **C2 (amended).** For every non-burnt closed switch, the conductance
stamped during assembly is the constant `1/0.01 = 100` S — the switch's
configured resistance property is ignored — and the update step divides
by the same constant `0.01`. -/
theorem c2_switch_constant_resistance (c : Component) (hty : c.ctype = .switch)
    (hcl : c.properties.closed = true) (hb : c.state.burnt = false) :
    (∀ (ckt : Circuit) (msize : ℕ) (vsPos : List ℕ) (acc : Mat × List ℚ) (k : ℕ),
      stampComp ckt msize vsPos acc k c =
        (addG acc.1 (nodeOf ckt c.id 0) (nodeOf ckt c.id 1) 100, acc.2)) ∧
    updateR c = 1 / 100 := by
  constructor
  · intro ckt msize vsPos acc k
    simp [stampComp, hty, hb, assemblyR, hcl]
  · simp [updateR, hty, hcl]

/-- Closed instance of `c2_switch_constant_resistance` at the switch with
configured resistance 7 Ω. -/
theorem c2_switch_constant_resistance_witness :
    stampComp (switchCircuit 7) 1 [] ([[0]], [0]) 0 (switchComp 7) =
      (addG [[0]] (nodeOf (switchCircuit 7) 5 0) (nodeOf (switchCircuit 7) 5 1) 100,
        [0]) ∧
    updateR (switchComp 7) = 1 / 100 :=
  ⟨(c2_switch_constant_resistance (switchComp 7) rfl rfl rfl).1
      (switchCircuit 7) 1 [] ([[0]], [0]) 0,
    (c2_switch_constant_resistance (switchComp 7) rfl rfl rfl).2⟩

/-! ### C3 — diode assembly resistance -/

/-- **C3.** For every non-burnt diode, the resistance used when stamping
its conductance is the forward value 0.1 Ω exactly when the voltage drop
stored from the previous solve strictly exceeds the configured
`forwardVoltage`, and the reverse value 1e7 Ω otherwise. -/
theorem c3_diode_hysteresis (c : Component) (hty : c.ctype = .diode)
    (hb : c.state.burnt = false) :
    (assemblyR c = 1 / 10 ↔
      c.state.voltageDrop > c.properties.forwardVoltage) ∧
    (¬ c.state.voltageDrop > c.properties.forwardVoltage →
      assemblyR c = 10 ^ 7) := by
  clear hb
  by_cases h : c.state.voltageDrop > c.properties.forwardVoltage <;>
    simp [assemblyR, hty, h] <;> norm_num

/-- Closed instance of `c3_diode_hysteresis` at a conducting diode. -/
theorem c3_diode_hysteresis_witness :
    (assemblyR diodeOn = 1 / 10 ↔
      diodeOn.state.voltageDrop > diodeOn.properties.forwardVoltage) ∧
    (¬ diodeOn.state.voltageDrop > diodeOn.properties.forwardVoltage →
      assemblyR diodeOn = 10 ^ 7) :=
  c3_diode_hysteresis diodeOn rfl rfl

/-! ### C8 — update resistance matches assembly resistance -/

/-- **C8.** For every non-burnt passive component (resistor, light, fan,
switch, diode) the resistance the state updater divides by equals the
resistance used for that component's conductance stamp during assembly —
both are computed from the component as it stands before the update
writes it, so the diode reads the previous solve's voltage drop in both
places. -/
theorem c8_update_matches_assembly (c : Component)
    (hty : c.ctype = .resistor ∨ c.ctype = .light ∨ c.ctype = .fan ∨
      c.ctype = .switch ∨ c.ctype = .diode)
    (hb : c.state.burnt = false) :
    updateR c = assemblyR c := by
  clear hb
  rcases hty with h | h | h | h | h <;> simp [updateR, assemblyR, h]

/-- Closed instance of `c8_update_matches_assembly` at the default
resistor. -/
theorem c8_update_matches_assembly_witness : updateR res100 = assemblyR res100 :=
  c8_update_matches_assembly res100 (Or.inl rfl) rfl

/-! ### C9 — zero configured resistance -/

set_option maxRecDepth 8000 in
/-- **C9.** The series loop with a resistor configured to exactly 0 Ω:
the resistor is non-burnt, assembly stamps no conductance for it (the
`R > 0` guard fails, so the assembled system carries only the battery
stamp and the 1e-9 leakage on the free-node diagonal), while the update
step divides by `R = 0` — and the voltage drop it divides is nonzero, so
the source's unguarded `V/R` is a genuine division of a nonzero value by
zero. -/
theorem c9_zero_resistance_unguarded :
    res0.properties.resistance = 0 ∧
    res0.state.burnt = false ∧
    (assembleSystem zeroResCircuit).1 = [[1 / 10 ^ 9, 1], [1, 3 / 2]] ∧
    updateR res0 = 0 ∧
    ((solveCircuit zeroResCircuit).components.map
      (fun c => c.state.voltageDrop)).getD 1 0 ≠ 0 := by
  decide

/-! ### Indexing helper lemmas -/

lemma getD_map_of_lt (l : List Component) (f : Component → Component) (i : ℕ)
    (hi : i < l.length) :
    (l.map f).getD i defaultComponent = f (l.getD i defaultComponent) := by
  rw [List.getD_eq_getElem?_getD, List.getD_eq_getElem?_getD,
    List.getElem?_map, List.getElem?_eq_getElem hi]
  rfl

lemma getD_enumMap_of_lt (l : List Component) (u : ℕ → Component → Component)
    (i : ℕ) (hi : i < l.length) :
    (l.enum.map (fun p => u p.1 p.2)).getD i defaultComponent =
      u i (l.getD i defaultComponent) := by
  rw [List.getD_eq_getElem?_getD, List.getD_eq_getElem?_getD,
    List.getElem?_map, List.getElem?_enum, List.getElem?_eq_getElem hi]
  rfl

/-! ### C10 — the solver only writes state -/

lemma structuralProj_updateComp (ckt : Circuit) (x : List ℚ) (k : ℕ)
    (c : Component) : structuralProj (updateComp ckt x k c) = structuralProj c := by
  unfold updateComp
  split
  · rfl
  · split <;> rfl

/-- The frame fact shared by several results: a solve keeps the wires and
every component's structural fields. -/
lemma solve_structural_frame (ckt : Circuit) :
    (solveCircuit ckt).wires = ckt.wires ∧
    (solveCircuit ckt).components.map structuralProj =
      ckt.components.map structuralProj := by
  unfold solveCircuit
  split
  · exact ⟨rfl, rfl⟩
  split
  · refine ⟨rfl, ?_⟩
    simp only [List.map_map]
    exact List.map_congr_left (fun c _ => rfl)
  · refine ⟨rfl, ?_⟩
    simp only [List.map_map]
    have h1 : ∀ p ∈ ckt.components.enum,
        (structuralProj ∘ fun q => updateComp ckt (solutionVec ckt) q.1 q.2) p =
          (structuralProj ∘ Prod.snd) p := by
      intro p _
      exact structuralProj_updateComp ckt (solutionVec ckt) p.1 p.2
    rw [List.map_congr_left h1, ← List.map_map]
    rw [List.enum_map_snd]

/-- **C10.** `solveCircuit` never changes the circuit structure: the wire
list is untouched, and the component list keeps its length and order with
every component's id, type, position, rotation, terminals and properties
intact — only the state fields (current, voltageDrop, power, burnt,
nodeIds) can change. -/
theorem c10_solver_structure_frame (ckt : Circuit) :
    (solveCircuit ckt).wires = ckt.wires ∧
    (solveCircuit ckt).components.map structuralProj =
      ckt.components.map structuralProj :=
  solve_structural_frame ckt

set_option maxRecDepth 8000 in
/-- Closed instance of `c10_solver_structure_frame` at the series test
circuit. -/
theorem c10_solver_structure_frame_witness :
    (solveCircuit seriesCircuit).wires = seriesCircuit.wires ∧
    (solveCircuit seriesCircuit).components.map structuralProj =
      seriesCircuit.components.map structuralProj :=
  c10_solver_structure_frame seriesCircuit

/-! ### C4 — the burnt flag only moves from false to true, and only by
overload on resistor/light/fan -/

lemma updateComp_burnt_monotone (ckt : Circuit) (x : List ℚ) (k : ℕ)
    (c : Component) (hb : c.state.burnt = true) :
    (updateComp ckt x k c).state.burnt = true := by
  unfold updateComp
  simp [hb]

lemma updateComp_burn_condition (ckt : Circuit) (x : List ℚ) (k : ℕ)
    (c : Component) (hb : c.state.burnt = false)
    (hb2 : (updateComp ckt x k c).state.burnt = true) :
    (c.ctype = .resistor ∨ c.ctype = .light ∨ c.ctype = .fan) ∧
      (updateComp ckt x k c).state.power >
        c.properties.powerRating * (3 / 2) := by
  unfold updateComp at hb2 ⊢
  rw [hb] at hb2 ⊢
  simp only [Bool.false_eq_true, if_false] at hb2 ⊢
  by_cases hbat : c.ctype = .battery
  · simp [hbat, hb] at hb2
  · simp only [hbat, if_false] at hb2 ⊢
    by_cases hcond : (c.ctype = .resistor ∨ c.ctype = .light ∨ c.ctype = .fan) ∧
        updVdrop ckt x c / updateR c * (updVdrop ckt x c / updateR c) * updateR c >
          c.properties.powerRating * (3 / 2)
    · exact ⟨hcond.1, by simp [hcond]⟩
    · simp [hcond, hb] at hb2

/-- **C4.** In every `solveCircuit` call, a component's burnt flag never
goes from true to false, and it goes from false to true only for a
resistor, light or fan and only when the power computed in that very call
strictly exceeds 1.5× the component's configured power rating. -/
theorem c4_burn_only_by_overload (ckt : Circuit) (i : ℕ)
    (hi : i < ckt.components.length) :
    ((ckt.components.getD i defaultComponent).state.burnt = true →
      ((solveCircuit ckt).components.getD i defaultComponent).state.burnt = true) ∧
    ((ckt.components.getD i defaultComponent).state.burnt = false →
      ((solveCircuit ckt).components.getD i defaultComponent).state.burnt = true →
      ((ckt.components.getD i defaultComponent).ctype = .resistor ∨
        (ckt.components.getD i defaultComponent).ctype = .light ∨
        (ckt.components.getD i defaultComponent).ctype = .fan) ∧
      ((solveCircuit ckt).components.getD i defaultComponent).state.power >
        (ckt.components.getD i defaultComponent).properties.powerRating * (3 / 2)) := by
  unfold solveCircuit
  split
  · next hemp => rw [hemp] at hi; simp at hi
  split
  · simp only
    rw [getD_map_of_lt _ _ _ hi]
    exact ⟨fun h => h, fun h h2 => absurd (h ▸ h2) (by simp [h])⟩
  · simp only
    rw [getD_enumMap_of_lt _ _ _ hi]
    exact ⟨updateComp_burnt_monotone ckt (solutionVec ckt) i _,
      updateComp_burn_condition ckt (solutionVec ckt) i _⟩

/-- Closed instance of `c4_burn_only_by_overload` at the series test
circuit (whose resistor burns during the call). -/
theorem c4_burn_only_by_overload_witness :
    ((seriesCircuit.components.getD 1 defaultComponent).state.burnt = true →
      ((solveCircuit seriesCircuit).components.getD 1 defaultComponent).state.burnt = true) ∧
    ((seriesCircuit.components.getD 1 defaultComponent).state.burnt = false →
      ((solveCircuit seriesCircuit).components.getD 1 defaultComponent).state.burnt = true →
      ((seriesCircuit.components.getD 1 defaultComponent).ctype = .resistor ∨
        (seriesCircuit.components.getD 1 defaultComponent).ctype = .light ∨
        (seriesCircuit.components.getD 1 defaultComponent).ctype = .fan) ∧
      ((solveCircuit seriesCircuit).components.getD 1 defaultComponent).state.power >
        (seriesCircuit.components.getD 1 defaultComponent).properties.powerRating * (3 / 2)) :=
  c4_burn_only_by_overload seriesCircuit 1 (by decide)

/-! ### C5 — what a call does to an already-burnt component -/

lemma updateComp_of_burnt (ckt : Circuit) (x : List ℚ) (k : ℕ)
    (c : Component) (hb : c.state.burnt = true) :
    (updateComp ckt x k c).state.current = 0 ∧
    (updateComp ckt x k c).state.power = 0 ∧
    (updateComp ckt x k c).state.voltageDrop = c.state.voltageDrop := by
  unfold updateComp
  simp [hb]

set_option maxRecDepth 8000 in
/-- **C5 (counterexample).** The claim says a burnt component always gets
current 0 and power 0 with its voltage drop left unchanged.  In the
degenerate path with zero free nodes (here: a burnt resistor whose two
terminals are tied together by a wire) the call instead zeroes the
voltage drop (5 → 0) and leaves the power untouched (2, not 0). -/
theorem c5_burnt_frame_counterexample :
    burntRes.state.burnt = true ∧
    burntRes.state.voltageDrop = 5 ∧
    burntRes.state.power = 2 ∧
    ¬ (((solveCircuit tiedCircuit).components.getD 0 defaultComponent).state.power = 0 ∧
      ((solveCircuit tiedCircuit).components.getD 0 defaultComponent).state.voltageDrop =
        burntRes.state.voltageDrop) ∧
    ((solveCircuit tiedCircuit).components.getD 0 defaultComponent).state.current = 0 ∧
    ((solveCircuit tiedCircuit).components.getD 0 defaultComponent).state.voltageDrop = 0 ∧
    ((solveCircuit tiedCircuit).components.getD 0 defaultComponent).state.power = 2 := by
  decide

/-- **C5 (amended).** For a component burnt at the start of a call: if the
call reaches assembly (at least one free node), it sets the component's
current and power to 0 and leaves its voltage drop unchanged; if the call
takes the zero-free-node path instead, it sets current and voltage drop
to 0 and leaves power (and the burnt flag) unchanged. -/
theorem c5_burnt_component_frame (ckt : Circuit) (i : ℕ)
    (hi : i < ckt.components.length)
    (hb : (ckt.components.getD i defaultComponent).state.burnt = true) :
    (0 < freeNodeCount ckt →
      ((solveCircuit ckt).components.getD i defaultComponent).state.current = 0 ∧
      ((solveCircuit ckt).components.getD i defaultComponent).state.power = 0 ∧
      ((solveCircuit ckt).components.getD i defaultComponent).state.voltageDrop =
        (ckt.components.getD i defaultComponent).state.voltageDrop) ∧
    (freeNodeCount ckt = 0 →
      ((solveCircuit ckt).components.getD i defaultComponent).state.current = 0 ∧
      ((solveCircuit ckt).components.getD i defaultComponent).state.voltageDrop = 0 ∧
      ((solveCircuit ckt).components.getD i defaultComponent).state.power =
        (ckt.components.getD i defaultComponent).state.power ∧
      ((solveCircuit ckt).components.getD i defaultComponent).state.burnt = true) := by
  unfold solveCircuit
  split
  · next hemp => rw [hemp] at hi; simp at hi
  split
  · next hfz =>
    rw [getD_map_of_lt _ _ _ hi]
    exact ⟨fun hpos => absurd hfz (by omega), fun _ => ⟨rfl, rfl, rfl, hb⟩⟩
  · next hfz =>
    rw [getD_enumMap_of_lt _ _ _ hi]
    exact ⟨fun _ => updateComp_of_burnt ckt (solutionVec ckt) i _ hb,
      fun h0 => absurd h0 hfz⟩

set_option maxRecDepth 8000 in
/-- Closed instance of `c5_burnt_component_frame`: the tied circuit, whose
solve takes the zero-free-node path. -/
theorem c5_burnt_component_frame_witness :
    ((solveCircuit tiedCircuit).components.getD 0 defaultComponent).state.current = 0 ∧
    ((solveCircuit tiedCircuit).components.getD 0 defaultComponent).state.voltageDrop = 0 ∧
    ((solveCircuit tiedCircuit).components.getD 0 defaultComponent).state.power =
      (tiedCircuit.components.getD 0 defaultComponent).state.power ∧
    ((solveCircuit tiedCircuit).components.getD 0 defaultComponent).state.burnt = true :=
  (c5_burnt_component_frame tiedCircuit 0 (by decide) (by decide)).2 (by decide)

/-! ### C7 — dimensions of the assembled system -/

lemma foldl_invariant {α β : Type} (P : β → Prop) (f : β → α → β)
    (hf : ∀ b a, P b → P (f b a)) : ∀ (l : List α) (b : β), P b → P (l.foldl f b) := by
  intro l
  induction l with
  | nil => exact fun b h => h
  | cons a t ih => exact fun b h => ih _ (hf _ _ h)

lemma mem_foldl_dedup (a : ℕ) : ∀ (l acc : List ℕ),
    (a ∈ l.foldl (fun acc b => if b ∈ acc then acc else acc ++ [b]) acc) ↔
      a ∈ acc ∨ a ∈ l := by
  intro l
  induction l with
  | nil => simp
  | cons b t ih =>
    intro acc
    simp only [List.foldl_cons]
    by_cases hb : b ∈ acc
    · rw [if_pos hb, ih]
      simp only [List.mem_cons]
      constructor
      · rintro (h | h)
        · exact Or.inl h
        · exact Or.inr (Or.inr h)
      · rintro (h | h | h)
        · exact Or.inl h
        · exact Or.inl (h ▸ hb)
        · exact Or.inr h
    · rw [if_neg hb, ih]
      simp only [List.mem_append, List.mem_cons, List.mem_singleton]
      tauto

lemma nodup_foldl_dedup : ∀ (l acc : List ℕ), acc.Nodup →
    (l.foldl (fun acc b => if b ∈ acc then acc else acc ++ [b]) acc).Nodup := by
  intro l
  induction l with
  | nil => exact fun acc h => h
  | cons b t ih =>
    intro acc h
    simp only [List.foldl_cons]
    by_cases hb : b ∈ acc
    · rw [if_pos hb]; exact ih _ h
    · rw [if_neg hb]
      exact ih _ (by simp [List.nodup_append, h, hb])

lemma mem_dedupFirst {a : ℕ} {l : List ℕ} : a ∈ dedupFirst l ↔ a ∈ l := by
  unfold dedupFirst
  rw [mem_foldl_dedup]
  simp

lemma nodup_dedupFirst (l : List ℕ) : (dedupFirst l).Nodup :=
  nodup_foldl_dedup l [] List.nodup_nil

lemma length_filter_ne_of_nodup : ∀ (l : List ℕ), l.Nodup → ∀ g ∈ l,
    (l.filter (fun a => a ≠ g)).length = l.length - 1 := by
  intro l
  induction l with
  | nil => intro _ g hg; simp at hg
  | cons b t ih =>
    intro h g hg
    have hnd := List.nodup_cons.mp h
    rcases List.mem_cons.mp hg with hbg | hgt
    · subst hbg
      rw [List.filter_cons_of_neg (by simp)]
      rw [List.filter_eq_self.mpr (fun a ha => by
        simp only [decide_eq_true_eq]
        exact fun hag => hnd.1 (hag ▸ ha))]
      simp
    · have hbg : b ≠ g := fun hb => hnd.1 (hb ▸ hgt)
      rw [List.filter_cons_of_pos (by simp [hbg])]
      have ht := ih hnd.2 g hgt
      have htpos : 0 < t.length := List.length_pos.mpr (List.ne_nil_of_mem hgt)
      simp only [List.length_cons, ht]
      omega

/-- The ground root really is one of the collected roots. -/
lemma ground_mem_rootsList (ckt : Circuit) (hne : ckt.components ≠ []) :
    groundRootC ckt ∈ rootsListC ckt := by
  unfold groundRootC
  cases hf : ckt.components.find? (fun c => c.ctype = .battery) with
  | some b =>
    have hb : b ∈ ckt.components := List.mem_of_find?_eq_some hf
    exact mem_dedupFirst.mpr
      (List.mem_flatMap.mpr ⟨b, hb, by simp⟩)
  | none =>
    have h1 : rawRoots ckt ≠ [] := by
      unfold rawRoots
      cases hc : ckt.components with
      | nil => exact absurd hc hne
      | cons c rest => simp
    have h2 : rootsListC ckt ≠ [] := by
      cases hr : rawRoots ckt with
      | nil => exact absurd hr h1
      | cons a rest =>
        have ha : a ∈ rawRoots ckt := by
          rw [hr]
          exact List.mem_cons_self a rest
        exact List.ne_nil_of_mem (mem_dedupFirst.mpr ha)
    cases hl : rootsListC ckt with
    | nil => exact absurd hl h2
    | cons a rest => simp [List.headD]

lemma freeNodeCount_eq (ckt : Circuit) (hne : ckt.components ≠ []) :
    freeNodeCount ckt = (rootsListC ckt).length - 1 :=
  length_filter_ne_of_nodup _ (nodup_dedupFirst _) _ (ground_mem_rootsList ckt hne)

lemma length_filter_enumFrom (q : Component → Bool) :
    ∀ (l : List Component) (n : ℕ),
      ((l.enumFrom n).filter (fun p => q p.2)).length = (l.filter q).length := by
  intro l
  induction l with
  | nil => intro n; rfl
  | cons c t ih =>
    intro n
    simp only [List.enumFrom_cons, List.filter_cons]
    cases hq : q c <;> simp [ih]

lemma vsPositions_length (ckt : Circuit) :
    (vsPositions ckt).length =
      (ckt.components.filter
        (fun c => c.ctype = .battery ∧ c.state.burnt = false)).length := by
  unfold vsPositions
  rw [List.length_map]
  exact length_filter_enumFrom
    (fun c => decide (c.ctype = .battery ∧ c.state.burnt = false))
    ckt.components 0

lemma matShape_set_row {n : ℕ} {A : Mat} {r : List ℚ} (i : ℕ)
    (h : matShape n A) (hr : r.length = n) : matShape n (A.set i r) := by
  refine ⟨by simp [h.1], fun row hrow => ?_⟩
  rcases List.mem_or_eq_of_mem_set hrow with h' | h'
  · exact h.2 _ h'
  · exact h' ▸ hr

lemma matShape_mSet {n : ℕ} {A : Mat} (i j : ℕ) (v : ℚ)
    (h : matShape n A) : matShape n (mSet A i j v) := by
  unfold mSet
  by_cases hi : i < A.length
  · refine matShape_set_row i h ?_
    rw [List.getD_eq_getElem A [] hi]
    simp [h.2 _ (List.getElem_mem hi)]
  · rw [List.set_eq_of_length_le (by omega)]
    exact h

lemma matShape_mAdd {n : ℕ} {A : Mat} (i j : ℕ) (v : ℚ)
    (h : matShape n A) : matShape n (mAdd A i j v) :=
  matShape_mSet i j _ h

lemma matShape_addG {n : ℕ} {A : Mat} (n1 n2 : Int) (G : ℚ)
    (h : matShape n A) : matShape n (addG A n1 n2 G) := by
  unfold addG
  split_ifs <;>
    repeat (first | assumption | apply matShape_mAdd)

lemma stampComp_preserves (ckt : Circuit) (msize : ℕ) (vsPos : List ℕ)
    {n : ℕ} (acc : Mat × List ℚ) (k : ℕ) (c : Component)
    (h : matShape n acc.1 ∧ acc.2.length = n) :
    matShape n (stampComp ckt msize vsPos acc k c).1 ∧
      (stampComp ckt msize vsPos acc k c).2.length = n := by
  unfold stampComp
  split
  · exact h
  dsimp only
  split
  all_goals first
    | (refine ⟨?_, by simpa using h.2⟩
       split_ifs <;>
         repeat (first | exact h.1 | apply matShape_mSet))
    | (split
       · exact ⟨matShape_addG _ _ _ h.1, h.2⟩
       · exact h)
    | exact ⟨matShape_addG _ _ _ h.1, h.2⟩

lemma assembleSystem_shape (ckt : Circuit) :
    matShape (numVars ckt) (assembleSystem ckt).1 ∧
      (assembleSystem ckt).2.length = numVars ckt := by
  unfold assembleSystem
  have hstamped := foldl_invariant
    (fun acc : Mat × List ℚ => matShape (numVars ckt) acc.1 ∧
      acc.2.length = numVars ckt)
    (fun acc p => stampComp ckt (freeNodeCount ckt) (vsPositions ckt) acc p.1 p.2)
    (fun acc p hp => stampComp_preserves ckt _ _ acc p.1 p.2 hp)
    ckt.components.enum
    (List.replicate (numVars ckt) (List.replicate (numVars ckt) 0),
      List.replicate (numVars ckt) 0)
    (by
      refine ⟨⟨by simp, fun row hrow => ?_⟩, by simp⟩
      rw [List.eq_of_mem_replicate hrow]
      simp)
  refine ⟨?_, hstamped.2⟩
  exact foldl_invariant (matShape (numVars ckt))
    (fun A i => mAdd A i i (1 / 10 ^ 9))
    (fun A i hA => matShape_mAdd i i _ hA)
    (List.range (freeNodeCount ckt)) _ hstamped.1

/-- **C7.** Whenever a solve reaches assembly (at least one free node),
the assembled linear system is square, of dimension (number of distinct
terminal equivalence classes − 1) + (number of non-burnt battery
components) — the classes being collected over the terminals of every
component, burnt or not. -/
theorem c7_system_dimensions (ckt : Circuit) (h : 0 < freeNodeCount ckt) :
    (assembleSystem ckt).1.length =
      (rootsListC ckt).length - 1 +
        (ckt.components.filter
          (fun c => c.ctype = .battery ∧ c.state.burnt = false)).length ∧
    (∀ row ∈ (assembleSystem ckt).1,
      row.length = (assembleSystem ckt).1.length) ∧
    (assembleSystem ckt).2.length = (assembleSystem ckt).1.length := by
  have hne : ckt.components ≠ [] := by
    intro hemp
    have : freeNodeCount ckt = 0 := by
      unfold freeNodeCount rootsListC rawRoots dedupFirst
      rw [hemp]
      rfl
    omega
  have hshape := assembleSystem_shape ckt
  have hnv : numVars ckt =
      (rootsListC ckt).length - 1 +
        (ckt.components.filter
          (fun c => c.ctype = .battery ∧ c.state.burnt = false)).length := by
    unfold numVars
    rw [freeNodeCount_eq ckt hne, vsPositions_length]
  refine ⟨hshape.1.1.trans hnv, fun row hrow => ?_, ?_⟩
  · rw [hshape.1.1]
    exact hshape.1.2 row hrow
  · rw [hshape.1.1]
    exact hshape.2

/-- Closed instance of `c7_system_dimensions` at the series test
circuit. -/
theorem c7_system_dimensions_witness :
    (assembleSystem seriesCircuit).1.length =
      (rootsListC seriesCircuit).length - 1 +
        (seriesCircuit.components.filter
          (fun c => c.ctype = .battery ∧ c.state.burnt = false)).length ∧
    (∀ row ∈ (assembleSystem seriesCircuit).1,
      row.length = (assembleSystem seriesCircuit).1.length) ∧
    (assembleSystem seriesCircuit).2.length =
      (assembleSystem seriesCircuit).1.length :=
  c7_system_dimensions seriesCircuit (by decide)

/-! ### C6 — idempotence of a second solve (diode-free circuits) -/

lemma updateComp_battery_spec (ckt : Circuit) (x : List ℚ) (k : ℕ)
    (c : Component) (hb : c.state.burnt = false) (hbat : c.ctype = .battery) :
    updateComp ckt x k c =
      { c with state := { c.state with
          voltageDrop := updVdrop ckt x c
          current := x.getD (freeNodeCount ckt + (vsPositions ckt).indexOf k) 0
          power := x.getD (freeNodeCount ckt + (vsPositions ckt).indexOf k) 0 *
            x.getD (freeNodeCount ckt + (vsPositions ckt).indexOf k) 0 *
            c.properties.internalResistance
          nodeIds := (nodeOf ckt c.id 0, nodeOf ckt c.id 1) } } := by
  unfold updateComp
  simp [hb, hbat]

lemma updateComp_passive_spec (ckt : Circuit) (x : List ℚ) (k : ℕ)
    (c : Component) (hb : c.state.burnt = false) (hbat : ¬ c.ctype = .battery) :
    updateComp ckt x k c =
      { c with state := { c.state with
          voltageDrop := updVdrop ckt x c
          current := updVdrop ckt x c / updateR c
          power := updVdrop ckt x c / updateR c * (updVdrop ckt x c / updateR c) *
            updateR c
          burnt :=
            if (c.ctype = .resistor ∨ c.ctype = .light ∨ c.ctype = .fan) ∧
                updVdrop ckt x c / updateR c * (updVdrop ckt x c / updateR c) *
                    updateR c > c.properties.powerRating * (3 / 2) then
              true
            else c.state.burnt
          nodeIds := (nodeOf ckt c.id 0, nodeOf ckt c.id 1) } } := by
  unfold updateComp
  simp [hb, hbat]

/-- `updateR` only reads the state through the diode branch, so replacing
the state of a non-diode component does not change it. -/
lemma updateR_state_invariant (c : Component) (st : CompState)
    (hd : c.ctype ≠ .diode) :
    updateR { c with state := st } = updateR c := by
  unfold updateR
  dsimp only
  rw [if_neg hd, if_neg hd]

/-- Given a fixed solution and context, updating twice is the same as
updating once, for a non-diode component whose update does not change the
burnt flag. -/
lemma updateComp_idem (ckt : Circuit) (x : List ℚ) (k : ℕ) (c : Component)
    (hd : c.ctype ≠ .diode)
    (hburn : (updateComp ckt x k c).state.burnt = c.state.burnt) :
    updateComp ckt x k (updateComp ckt x k c) = updateComp ckt x k c := by
  by_cases hb : c.state.burnt
  · unfold updateComp
    simp [hb]
  · have hb' : c.state.burnt = false := by simpa using hb
    by_cases hbat : c.ctype = .battery
    · rw [updateComp_battery_spec ckt x k c hb' hbat]
      rw [updateComp_battery_spec ckt x k _ (by simpa using hb') (by simpa using hbat)]
      rfl
    · rw [updateComp_passive_spec ckt x k c hb' hbat] at hburn ⊢
      by_cases hcond : (c.ctype = .resistor ∨ c.ctype = .light ∨ c.ctype = .fan) ∧
          updVdrop ckt x c / updateR c * (updVdrop ckt x c / updateR c) *
              updateR c > c.properties.powerRating * (3 / 2)
      · rw [if_pos hcond] at hburn
        simp only at hburn
        rw [hb'] at hburn
        exact absurd hburn (by simp)
      · simp only [if_neg hcond] at hburn ⊢
        rw [updateComp_passive_spec ckt x k _ (by simpa using hb') (by simpa using hbat)]
        have hR : updateR { c with state := { c.state with
            voltageDrop := updVdrop ckt x c
            current := updVdrop ckt x c / updateR c
            power := updVdrop ckt x c / updateR c * (updVdrop ckt x c / updateR c) *
              updateR c
            burnt := c.state.burnt
            nodeIds := (nodeOf ckt c.id 0, nodeOf ckt c.id 1) } } = updateR c :=
          updateR_state_invariant c _ hd
        simp only [hR]
        split
        · next hcE => exact absurd hcE hcond
        · rfl

lemma mem_of_getElem?_eq_some {α : Type} {l : List α} {i : ℕ} {a : α}
    (h : l[i]? = some a) : a ∈ l := by
  obtain ⟨hlt, he⟩ := List.getElem?_eq_some.mp h
  exact he ▸ List.getElem_mem hlt

lemma map_pair_congr {α β γ : Type} (f : α → β) (g : α → γ) :
    ∀ (l l' : List α), l.map f = l'.map f → l.map g = l'.map g →
      l.map (fun a => (f a, g a)) = l'.map (fun a => (f a, g a)) := by
  intro l
  induction l with
  | nil =>
    intro l' h _
    cases l' with
    | nil => rfl
    | cons b t => simp at h
  | cons a t ih =>
    intro l' hf hg
    cases l' with
    | nil => simp at hf
    | cons b t' =>
      simp only [List.map_cons, List.cons.injEq] at hf hg ⊢
      exact ⟨by rw [hf.1, hg.1], ih t' hf.2 hg.2⟩

lemma enumFrom_map_pair {α β : Type} (f : α → β) :
    ∀ (l l' : List α) (n : ℕ), l.map f = l'.map f →
      (l.enumFrom n).map (fun p => (p.1, f p.2)) =
        (l'.enumFrom n).map (fun p => (p.1, f p.2)) := by
  intro l
  induction l with
  | nil =>
    intro l' n h
    cases l' with
    | nil => rfl
    | cons b t => simp at h
  | cons a t ih =>
    intro l' n h
    cases l' with
    | nil => simp at h
    | cons b t' =>
      simp only [List.map_cons, List.cons.injEq] at h
      simp only [List.enumFrom_cons, List.map_cons, List.cons.injEq]
      exact ⟨by rw [h.1], ih t' (n + 1) h.2⟩

lemma find_battery_id_congr :
    ∀ (l l' : List Component),
      l.map (fun c => (c.id, c.ctype)) = l'.map (fun c => (c.id, c.ctype)) →
      Option.map (fun c => c.id) (l.find? (fun c => c.ctype = .battery)) =
        Option.map (fun c => c.id) (l'.find? (fun c => c.ctype = .battery)) := by
  intro l
  induction l with
  | nil =>
    intro l' h
    cases l' with
    | nil => rfl
    | cons b t => simp at h
  | cons a t ih =>
    intro l' h
    cases l' with
    | nil => simp at h
    | cons b t' =>
      simp only [List.map_cons, List.cons.injEq, Prod.mk.injEq] at h
      obtain ⟨⟨hid, hty⟩, htl⟩ := h
      rw [List.find?_cons, List.find?_cons]
      by_cases hbat : a.ctype = .battery
      · have hb2 : b.ctype = .battery := hty ▸ hbat
        simp [hbat, hb2, hid]
      · have hb2 : ¬ b.ctype = .battery := by
          rw [← hty]
          exact hbat
        simp only [hbat, hb2, decide_eq_false_iff_not.mpr hbat,
          decide_eq_false_iff_not.mpr hb2]
        exact ih t' htl

lemma filter_enumFrom_fst_congr :
    ∀ (l l' : List Component) (n : ℕ),
      l.map (fun c => (c.ctype, c.state.burnt)) =
        l'.map (fun c => (c.ctype, c.state.burnt)) →
      ((l.enumFrom n).filter
          (fun p => p.2.ctype = .battery ∧ p.2.state.burnt = false)).map
          (fun p => p.1) =
        ((l'.enumFrom n).filter
          (fun p => p.2.ctype = .battery ∧ p.2.state.burnt = false)).map
          (fun p => p.1) := by
  intro l
  induction l with
  | nil =>
    intro l' n h
    cases l' with
    | nil => rfl
    | cons b t => simp at h
  | cons a t ih =>
    intro l' n h
    cases l' with
    | nil => simp at h
    | cons b t' =>
      simp only [List.map_cons, List.cons.injEq, Prod.mk.injEq] at h
      obtain ⟨⟨hty, hbu⟩, htl⟩ := h
      simp only [List.enumFrom_cons, List.filter_cons]
      rw [hty, hbu]
      split
      · simp only [List.map_cons]
        rw [ih t' (n + 1) htl]
      · exact ih t' (n + 1) htl

lemma assemblyR_congr (c' c : Component) (hty : c'.ctype = c.ctype)
    (hpr : c'.properties = c.properties) (hd : c.ctype ≠ .diode) :
    assemblyR c' = assemblyR c := by
  cases hc : c.ctype
  case diode => exact absurd hc hd
  all_goals
    rw [hc] at hty
    simp [assemblyR, hty, hc, hpr]

lemma stampComp_congr_comp (ckt : Circuit) (m : ℕ) (v : List ℕ)
    (acc : Mat × List ℚ) (k : ℕ) (c' c : Component)
    (hv : solveView c' = solveView c) (hd : c.ctype ≠ .diode) :
    stampComp ckt m v acc k c' = stampComp ckt m v acc k c := by
  have hid : c'.id = c.id := congrArg (fun q => q.1) hv
  have hty : c'.ctype = c.ctype := congrArg (fun q => q.2.1) hv
  have hpr : c'.properties = c.properties := congrArg (fun q => q.2.2.1) hv
  have hbu : c'.state.burnt = c.state.burnt := congrArg (fun q => q.2.2.2) hv
  have hR := assemblyR_congr c' c hty hpr hd
  unfold stampComp
  rw [hid, hbu]
  cases hc : c.ctype
  all_goals
    rw [hc] at hty
    simp [hty, hc, hpr, hR]

lemma stampComp_congr_ckt (s ckt : Circuit)
    (hnode : ∀ cid t, nodeOf s cid t = nodeOf ckt cid t)
    (m : ℕ) (v : List ℕ) (acc : Mat × List ℚ) (k : ℕ) (c : Component) :
    stampComp s m v acc k c = stampComp ckt m v acc k c := by
  unfold stampComp
  simp only [hnode]

lemma stamp_fold_congr (ckt : Circuit) (m : ℕ) (v : List ℕ) :
    ∀ (l l' : List (ℕ × Component)),
      l.map (fun p => (p.1, solveView p.2)) =
        l'.map (fun p => (p.1, solveView p.2)) →
      (∀ p ∈ l', p.2.ctype ≠ .diode) →
      ∀ acc, l.foldl (fun acc p => stampComp ckt m v acc p.1 p.2) acc =
        l'.foldl (fun acc p => stampComp ckt m v acc p.1 p.2) acc := by
  intro l
  induction l with
  | nil =>
    intro l' h _ acc
    cases l' with
    | nil => rfl
    | cons b t => simp at h
  | cons a t ih =>
    intro l' h hd acc
    cases l' with
    | nil => simp at h
    | cons b t' =>
      simp only [List.map_cons, List.cons.injEq, Prod.mk.injEq] at h
      obtain ⟨⟨hk, hview⟩, htl⟩ := h
      simp only [List.foldl_cons]
      rw [hk, stampComp_congr_comp ckt m v acc b.1 a.2 b.2 hview
        (hd b (List.mem_cons_self b t'))]
      exact ih t' htl (fun p hp => hd p (List.mem_cons_of_mem b hp)) _

lemma updVdrop_congr_ckt (s ckt : Circuit) (x : List ℚ)
    (hnode : ∀ cid t, nodeOf s cid t = nodeOf ckt cid t) (c : Component) :
    updVdrop s x c = updVdrop ckt x c := by
  unfold updVdrop
  rw [hnode, hnode]

lemma updateComp_congr_ckt (s ckt : Circuit) (x : List ℚ)
    (hnode : ∀ cid t, nodeOf s cid t = nodeOf ckt cid t)
    (hfree : freeNodeCount s = freeNodeCount ckt)
    (hvs : vsPositions s = vsPositions ckt)
    (k : ℕ) (c : Component) : updateComp s x k c = updateComp ckt x k c := by
  unfold updateComp
  simp only [hnode, hfree, hvs, updVdrop_congr_ckt s ckt x hnode]

lemma getElem?_enumMap {α : Type} (l : List α) (u : ℕ → α → α) (i : ℕ) :
    (l.enum.map (fun p => u p.1 p.2))[i]? = (l[i]?).map (u i) := by
  rw [List.getElem?_map, List.getElem?_enum]
  cases l[i]? <;> rfl

lemma getElem?_updMap (ckt : Circuit) (x : List ℚ) (l : List Component)
    (i : ℕ) :
    (l.enum.map (fun p => updateComp ckt x p.1 p.2))[i]? =
      (l[i]?).map (updateComp ckt x i) := by
  rw [List.getElem?_map, List.getElem?_enum]
  cases l[i]? <;> rfl

/-- The main-path equation of the solver. -/
lemma solveCircuit_main_eq (ckt : Circuit) (h1 : ¬ ckt.components = [])
    (h2 : ¬ freeNodeCount ckt = 0) :
    (solveCircuit ckt).components =
      ckt.components.enum.map
        (fun p => updateComp ckt (solutionVec ckt) p.1 p.2) := by
  unfold solveCircuit
  rw [if_neg h1, if_neg h2]

/-- The zero-free-node equation of the solver. -/
lemma solveCircuit_zero_eq (ckt : Circuit) (h1 : ¬ ckt.components = [])
    (h2 : freeNodeCount ckt = 0) :
    (solveCircuit ckt).components =
      ckt.components.map (fun c =>
        { c with state := { c.state with current := 0, voltageDrop := 0 } }) := by
  unfold solveCircuit
  rw [if_neg h1, if_pos h2]

/-- **C6 (amended).** For a diode-free circuit, if a `solveCircuit` call
changes no component's burnt flag, then a second consecutive call
reproduces every component's electrical state exactly (in the exact
arithmetic of the model).  The hypothesis is forced by the
counterexample: a call that burns a component leaves it with the overload
power, while the next call zeroes it. -/
theorem c6_resolve_idempotent (ckt : Circuit)
    (hnd : ∀ c ∈ ckt.components, c.ctype ≠ .diode)
    (hburn : (solveCircuit ckt).components.map (fun c => c.state.burnt) =
      ckt.components.map (fun c => c.state.burnt)) :
    (solveCircuit (solveCircuit ckt)).components.map stateProj =
      (solveCircuit ckt).components.map stateProj := by
  obtain ⟨hw, hsp⟩ := solve_structural_frame ckt
  have hid : (solveCircuit ckt).components.map (fun c => c.id) =
      ckt.components.map (fun c => c.id) := by
    have h := congrArg (List.map
      (fun q : ℕ × CompType × ℚ × ℚ × Int × List (ℕ × ℚ × ℚ) × Properties => q.1)) hsp
    simpa [List.map_map, structuralProj, Function.comp] using h
  have hty : (solveCircuit ckt).components.map (fun c => c.ctype) =
      ckt.components.map (fun c => c.ctype) := by
    have h := congrArg (List.map
      (fun q : ℕ × CompType × ℚ × ℚ × Int × List (ℕ × ℚ × ℚ) × Properties => q.2.1)) hsp
    simpa [List.map_map, structuralProj, Function.comp] using h
  have hpr : (solveCircuit ckt).components.map (fun c => c.properties) =
      ckt.components.map (fun c => c.properties) := by
    have h := congrArg (List.map
      (fun q : ℕ × CompType × ℚ × ℚ × Int × List (ℕ × ℚ × ℚ) × Properties =>
        q.2.2.2.2.2.2)) hsp
    simpa [List.map_map, structuralProj, Function.comp] using h
  have hlen : (solveCircuit ckt).components.length = ckt.components.length := by
    have h := congrArg List.length hsp
    simpa using h
  have hkm : keyMapC (solveCircuit ckt) = keyMapC ckt := by
    unfold keyMapC
    rw [hid]
  have hroot : dsuRootC (solveCircuit ckt) = dsuRootC ckt := by
    unfold dsuRootC
    rw [hkm, hw, hlen]
  have hterm : ∀ cid t, termRoot (solveCircuit ckt) cid t = termRoot ckt cid t := by
    intro cid t
    unfold termRoot termSetId
    rw [hkm, hroot]
  have hraw : rawRoots (solveCircuit ckt) = rawRoots ckt := by
    unfold rawRoots
    simp only [hterm]
    rw [List.flatMap_def, List.flatMap_def]
    have h := congrArg
      (List.map (fun i : ℕ => [termRoot ckt i 0, termRoot ckt i 1])) hid
    simp only [List.map_map, Function.comp_def] at h
    rw [h]
  have hroots : rootsListC (solveCircuit ckt) = rootsListC ckt := by
    unfold rootsListC
    rw [hraw]
  have hground : groundRootC (solveCircuit ckt) = groundRootC ckt := by
    unfold groundRootC
    have hfind := find_battery_id_congr (solveCircuit ckt).components ckt.components
      (map_pair_congr _ _ _ _ hid hty)
    cases hf1 : (solveCircuit ckt).components.find? (fun c => c.ctype = .battery) with
    | some b1 =>
      cases hf2 : ckt.components.find? (fun c => c.ctype = .battery) with
      | some b2 =>
        rw [hf1, hf2] at hfind
        simp only [Option.map_some', Option.some.injEq] at hfind
        dsimp only
        rw [hterm, hfind]
      | none =>
        rw [hf1, hf2] at hfind
        simp at hfind
    | none =>
      cases hf2 : ckt.components.find? (fun c => c.ctype = .battery) with
      | some b2 =>
        rw [hf1, hf2] at hfind
        simp at hfind
      | none =>
        dsimp only
        rw [hroots]
  have hfree : freeNodeCount (solveCircuit ckt) = freeNodeCount ckt := by
    unfold freeNodeCount
    rw [hroots, hground]
  have hnode : ∀ cid t, nodeOf (solveCircuit ckt) cid t = nodeOf ckt cid t := by
    intro cid t
    unfold nodeOf rootMatrixIdx
    rw [hterm, hroots, hground]
  have hvs : vsPositions (solveCircuit ckt) = vsPositions ckt := by
    unfold vsPositions
    exact filter_enumFrom_fst_congr (solveCircuit ckt).components ckt.components 0
      (map_pair_congr _ _ _ _ hty hburn)
  by_cases hemp : ckt.components = []
  · have he : solveCircuit ckt = ckt := by
      unfold solveCircuit
      rw [if_pos hemp]
    simp only [he]
  · by_cases hfz : freeNodeCount ckt = 0
    · have hemp2 : ¬ (solveCircuit ckt).components = [] := by
        intro h
        exact hemp (List.length_eq_zero.mp (hlen ▸ congrArg List.length h))
      have e1 := solveCircuit_zero_eq ckt hemp hfz
      have e2 := solveCircuit_zero_eq (solveCircuit ckt) hemp2 (hfree.trans hfz)
      rw [e2, e1, List.map_map, List.map_map, List.map_map]
      exact List.map_congr_left (fun c _ => rfl)
    · have hemp2 : ¬ (solveCircuit ckt).components = [] := by
        intro h
        exact hemp (List.length_eq_zero.mp (hlen ▸ congrArg List.length h))
      have hfz2 : ¬ freeNodeCount (solveCircuit ckt) = 0 := by
        rw [hfree]
        exact hfz
      have hnds : ∀ p ∈ ckt.components.enum, p.2.ctype ≠ .diode := by
        intro p hp
        exact hnd p.2 (mem_of_getElem?_eq_some (List.mem_enum_iff_getElem?.mp hp))
      have hview : (solveCircuit ckt).components.map solveView =
          ckt.components.map solveView := by
        have h1 := map_pair_congr (fun c : Component => c.properties)
          (fun c => c.state.burnt) _ _ hpr hburn
        have h2 := map_pair_congr (fun c : Component => c.ctype)
          (fun c => (c.properties, c.state.burnt)) _ _ hty h1
        have h3 := map_pair_congr (fun c : Component => c.id)
          (fun c => (c.ctype, c.properties, c.state.burnt)) _ _ hid h2
        exact h3
      have hnv : numVars (solveCircuit ckt) = numVars ckt := by
        unfold numVars
        rw [hfree, hvs]
      have hassemble : assembleSystem (solveCircuit ckt) = assembleSystem ckt := by
        unfold assembleSystem
        dsimp only
        rw [hnv, hfree, hvs]
        simp only [stampComp_congr_ckt (solveCircuit ckt) ckt hnode]
        rw [stamp_fold_congr ckt (freeNodeCount ckt) (vsPositions ckt)
          (solveCircuit ckt).components.enum ckt.components.enum
          (enumFrom_map_pair solveView (solveCircuit ckt).components
            ckt.components 0 hview)
          hnds
          (List.replicate (numVars ckt) (List.replicate (numVars ckt) 0),
            List.replicate (numVars ckt) 0)]
      have hx : solutionVec (solveCircuit ckt) = solutionVec ckt := by
        unfold solutionVec
        rw [hassemble]
      have e1 := solveCircuit_main_eq ckt hemp hfz
      have e2 := solveCircuit_main_eq (solveCircuit ckt) hemp2 hfz2
      rw [hx] at e2
      simp only [updateComp_congr_ckt (solveCircuit ckt) ckt (solutionVec ckt)
        hnode hfree hvs] at e2
      rw [e2, e1]
      apply List.ext_getElem?
      intro i
      simp only [List.getElem?_map, List.getElem?_enum]
      cases hci : ckt.components[i]? with
      | none => rfl
      | some ci =>
        have hdi : ci.ctype ≠ .diode := hnd ci (mem_of_getElem?_eq_some hci)
        have hbi : (updateComp ckt (solutionVec ckt) i ci).state.burnt =
            ci.state.burnt := by
          have h := congrArg (fun l : List Bool => l[i]?) hburn
          dsimp only at h
          rw [e1] at h
          simp only [List.getElem?_map, List.getElem?_enum, hci,
            Option.map_some'] at h
          exact Option.some.inj h
        simp only [Option.map_some']
        rw [updateComp_idem ckt (solutionVec ckt) i ci hdi hbi]

set_option maxRecDepth 8000 in
/-- **C6 (counterexample).** The claim promises identical state after a
second consecutive call on any diode-free circuit.  On the series test
circuit the first call burns the resistor (its power ≈ 0.835 W exceeds
1.5 × 0.5 W) and leaves that overload power on it, while the second call
zeroes the burnt resistor's current and power — so the states differ far
beyond any floating tolerance. -/
theorem c6_idempotence_counterexample :
    (∀ c ∈ seriesCircuit.components, c.ctype ≠ CompType.diode) ∧
    ((solveCircuit seriesCircuit).components.map
      (fun c => c.state.power)).getD 1 0 > 4 / 5 ∧
    ((solveCircuit (solveCircuit seriesCircuit)).components.map
      (fun c => c.state.power)).getD 1 0 = 0 ∧
    ¬ ((solveCircuit (solveCircuit seriesCircuit)).components.map stateProj =
        (solveCircuit seriesCircuit).components.map stateProj) := by
  decide

set_option maxRecDepth 8000 in
/-- Closed instance of `c6_resolve_idempotent`: the series loop with a
10 W power rating, where nothing burns. -/
theorem c6_resolve_idempotent_witness :
    (solveCircuit (solveCircuit okCircuit)).components.map stateProj =
      (solveCircuit okCircuit).components.map stateProj :=
  c6_resolve_idempotent okCircuit (by decide) (by decide)

end Circuits
